import Mathlib

/-!
Verification of the metadata-agent core against its specification.

The embedding follows `src/api_server.cc` (HTTP dispatcher and the
`/monitoredResource/` handler), `src/metadatad.cc` (`main` and the
`MetadataUpdater` callbacks from `updater.h`).  The metadata store,
the monitored-resource JSON codec and the polling loop body are not part
of the provided sources; those definitions are modelled from the
specification and are marked as such in their doc comments.
-/

namespace MetadataAgent

/-! ## JSON values

Modelled from the spec (§9, "Replacing dynamic JSON value trees with static
types"): a JSON-value sum type `null | bool | number | string | array |
object`; the repository's `json.cc` is not under `src/`. -/

inductive Json where
  | null : Json
  | bool : Bool → Json
  | num : Int → Json
  | str : String → Json
  | arr : List Json → Json
  | obj : List (String × Json) → Json
  deriving Inhabited

/-- Escape one character for inclusion in a JSON string literal. -/
def escapeChar (c : Char) : String :=
  if c = '"' ∨ c = '\\' then String.mk ['\\', c] else String.mk [c]

/-- Escape the characters of a string for a JSON string literal. -/
def escapeString (s : String) : String :=
  s.data.foldl (fun acc c => acc ++ escapeChar c) ""

/-- A JSON string literal: quotes around the escaped content. -/
def quoteString (s : String) : String :=
  "\"" ++ escapeString s ++ "\""

mutual

/-- Serialize a JSON value.  Modelled from the spec: `json::Value::ToString`
of the repository's `json.cc` is not under `src/`; objects render their
fields in the order given. -/
def jsonToString : Json → String
  | .null => "null"
  | .bool b => if b then "true" else "false"
  | .num n => toString n
  | .str s => quoteString s
  | .arr xs => "[" ++ jsonArrToString xs ++ "]"
  | .obj fs => "\x7b" ++ jsonObjToString fs ++ "\x7d"

/-- Comma-separated serialization of JSON array elements. -/
def jsonArrToString : List Json → String
  | [] => ""
  | [x] => jsonToString x
  | x :: y :: rest => jsonToString x ++ "," ++ jsonArrToString (y :: rest)

/-- Comma-separated serialization of JSON object fields, in field order. -/
def jsonObjToString : List (String × Json) → String
  | [] => ""
  | [(k, v)] => quoteString k ++ ":" ++ jsonToString v
  | (k, v) :: f :: rest =>
      quoteString k ++ ":" ++ jsonToString v ++ "," ++ jsonObjToString (f :: rest)

end

/-! ## Monitored resources and metadata records -/

/-- Modelled from the spec (§3, C1): an immutable value `(type, labels)`.
The repository's `resource.cc` is not under `src/`.  `labels` embeds the
C++ `std::map<std::string, std::string>`: an association list whose
canonical form keeps keys in ascending order without duplicates; two
resources are equal iff type and labels are pointwise equal, which for the
canonical form coincides with structural equality. -/
structure MonitoredResource where
  type : String
  labels : List (String × String)
  deriving DecidableEq, Inhabited

/-- Canonical JSON form of a monitored resource, modelled from the spec
(§3): `\x7b"type": T, "labels": \x7b...\x7d\x7d` with labels in storage
(key) order. -/
def resourceToJSON (r : MonitoredResource) : Json :=
  .obj [("type", .str r.type),
        ("labels", .obj (r.labels.map (fun kv => (kv.1, Json.str kv.2))))]

/-- Decode a JSON object's labels field back into string pairs. -/
def labelsFromJSON : List (String × Json) → Option (List (String × String))
  | [] => some []
  | (k, .str v) :: rest => (labelsFromJSON rest).map (fun tail => (k, v) :: tail)
  | _ => none

/-- Look a field up in a JSON object's field list (first occurrence). -/
def lookupField : List (String × Json) → String → Option Json
  | [], _ => none
  | (k, v) :: rest, key => if key = k then some v else lookupField rest key

/-- Modelled from the spec (§8, round-trip): JSON-decode a monitored
resource from the `\x7b"type": T, "labels": \x7b...\x7d\x7d` form. -/
def resourceFromJSON : Json → Option MonitoredResource
  | .obj fields =>
      match lookupField fields "type", lookupField fields "labels" with
      | some (.str t), some (.obj ls) =>
          (labelsFromJSON ls).map (fun labels => ⟨t, labels⟩)
      | _, _ => none
  | _ => none

/-- Modelled from the spec (§3, C2): the metadata record
`(version, created_at, collected_at, is_deleted, raw_content, expires_at?)`;
the repository's `store.h`/`store.cc` are not under `src/`.  Timestamps are
naturals. -/
structure Metadata where
  version : String
  created_at : Nat
  collected_at : Nat
  is_deleted : Bool
  raw_content : Json
  expires_at : Option Nat
  deriving Inhabited

/-! ## The metadata store

Modelled from the spec (§3 "Store entries", §4.1 "Operations"): the
repository's `store.cc` is not under `src/`.  Maps are embedded as
functions to `Option`. -/

/-- Store state: `alias → resource`, `resource → record`,
`resource → last collection time`. -/
structure MetadataStore where
  resourceMap : String → Option MonitoredResource
  metadataMap : MonitoredResource → Option Metadata
  lastCollection : MonitoredResource → Option Nat

/-- The empty store (process start; no persisted state). -/
def emptyStore : MetadataStore :=
  ⟨fun _ => none, fun _ => none, fun _ => none⟩

/-- Bind one alias to a resource in the alias map. -/
def bindAlias (a : String) (r : MonitoredResource)
    (m : String → Option MonitoredResource) : String → Option MonitoredResource :=
  fun x => if x = a then some r else m x

/-- Modelled from the spec (§4.1): `update_resource(aliases, resource)`
establishes `alias → resource` for each alias, the newer binding winning;
an empty alias string is rejected (§8 Boundaries: the empty-alias item is
rejected, others succeed). -/
def updateResource (ids : List String) (r : MonitoredResource)
    (s : MetadataStore) : MetadataStore :=
  { s with resourceMap :=
      ids.foldl (fun m a => if a = "" then m else bindAlias a r m) s.resourceMap }

/-- Modelled from the spec (§3 invariants 3 and 4): the incoming record
wins iff its `collected_at` is strictly newer, or equal and the incoming
record is a tombstone. -/
def newRecordWins (oldRec newRec : Metadata) : Bool :=
  (oldRec.collected_at < newRec.collected_at)
    || ((oldRec.collected_at == newRec.collected_at) && newRec.is_deleted)

/-- Modelled from the spec (§4.1): `update_metadata(resource, record)`
installs/replaces the record subject to invariants 3 and 4 and refreshes
`last_collection_time`. -/
def updateMetadata (r : MonitoredResource) (rec : Metadata)
    (s : MetadataStore) : MetadataStore :=
  match s.metadataMap r with
  | none =>
      { s with
        metadataMap := fun x => if x = r then some rec else s.metadataMap x,
        lastCollection := fun x => if x = r then some rec.collected_at else s.lastCollection x }
  | some oldRec =>
      if newRecordWins oldRec rec then
        { s with
          metadataMap := fun x => if x = r then some rec else s.metadataMap x,
          lastCollection := fun x => if x = r then some rec.collected_at else s.lastCollection x }
      else s

/-- Modelled from the spec (§4.1): `lookup_resource(alias)`; `none` embeds
the `NotFound` failure (the C++ store throws `std::out_of_range`). -/
def lookupResource (s : MetadataStore) (a : String) : Option MonitoredResource :=
  s.resourceMap a

/-- A store mutation, for reasoning about operation sequences. -/
inductive StoreOp where
  | updRes : List String → MonitoredResource → StoreOp
  | updMeta : MonitoredResource → Metadata → StoreOp

/-- Apply one store operation. -/
def applyOp (s : MetadataStore) : StoreOp → MetadataStore
  | .updRes ids r => updateResource ids r s
  | .updMeta r rec => updateMetadata r rec s

/-- Run a sequence of store operations in list order. -/
def runOps (s : MetadataStore) (ops : List StoreOp) : MetadataStore :=
  ops.foldl applyOp s

/-- The resource an operation binds a given alias to, if any. -/
def bindsTo (op : StoreOp) (a : String) : Option MonitoredResource :=
  match op with
  | .updRes ids r => if a ≠ "" ∧ a ∈ ids then some r else none
  | .updMeta _ _ => none

/-- The most recent binding of an alias over an operation sequence:
later operations take priority. -/
def lastBinding : List StoreOp → String → Option MonitoredResource
  | [], _ => none
  | op :: rest, a =>
      match lastBinding rest a with
      | some r => some r
      | none => bindsTo op a

/-! ## HTTP layer (`src/api_server.cc`) -/

/-- The request fields the dispatcher and handler consult
(`request.method`, `request.destination`). -/
structure HttpRequest where
  method : String
  destination : String

/-- A written response: status, `Content-Type` header, body. -/
structure HttpResponse where
  status : Nat
  contentType : String
  body : String
  deriving DecidableEq, Inhabited

/-- Does list `s` start with list `p`?  Embeds the C++
`destination.find(prefix) == 0` test of `api_server.cc:49`. -/
def listStarts : List Char → List Char → Bool
  | _, [] => true
  | [], _ :: _ => false
  | c :: cs, p :: ps => (c == p) && listStarts cs ps

/-- Does string `s` start with string `p`? -/
def strStarts (s p : String) : Bool :=
  listStarts s.data p.data

/-- Embeds `std::string::substr(pos)`: the suffix from `pos`, or `none`
when `pos` exceeds the size (C++ throws `std::out_of_range`). -/
def substrSafe (s : String) (pos : Nat) : Option String :=
  if pos ≤ s.data.length then some (String.mk (s.data.drop pos)) else none

/-- The path prefix `"/monitoredResource/"`: the `kPrefix` of
`MetadataApiServer::HandleMonitoredResource` (`api_server.cc:102`). -/
def kPrefix : String := "/monitoredResource/"

/-- The resource handler's response once the alias has been extracted:
`200` with the resource's JSON on a successful lookup, else the `404`
body built at `api_server.cc:128`  (`api_server.cc:107`..`133`). -/
def handleWithAlias (s : MetadataStore) (id : String) : HttpResponse :=
  match lookupResource s id with
  | some res => ⟨200, "application/json", jsonToString (resourceToJSON res)⟩
  | none => ⟨404, "application/json",
             jsonToString (.obj [("status_code", .num 404), ("error", .str "Not found")])⟩

/-- Embeds `MetadataApiServer::HandleMonitoredResource` (`api_server.cc:97`):
takes the suffix of the destination after `kPrefix` as the alias and
answers from the store; `none` embeds the uncaught `std::out_of_range`
from `substr` when the destination is shorter than the prefix (the
`substr` at `api_server.cc:103` sits outside the `try` block). -/
def handleMonitoredResource (s : MetadataStore) (req : HttpRequest) : Option HttpResponse :=
  (substrSafe req.destination kPrefix.data.length).map (handleWithAlias s)

/-- Does a request match a `(method, prefix)` key
(`api_server.cc:49`: equal method and prefix at position 0)? -/
def reqMatches (req : HttpRequest) (key : String × String) : Bool :=
  (req.method == key.1) && strStarts req.destination key.2

/-- Strict lexicographic order on character lists, embedding
`std::string::operator<`. -/
def listLtB : List Char → List Char → Bool
  | [], [] => false
  | [], _ :: _ => true
  | _ :: _, [] => false
  | a :: as, b :: bs => if a < b then true else if b < a then false else listLtB as bs

/-- Strict order on `(method, prefix)` keys, embedding
`std::pair<std::string, std::string>::operator<` — the order of the
`HandlerMap` (`std::map`). -/
def keyLtB (a b : String × String) : Bool :=
  listLtB a.1.data b.1.data || ((a.1 == b.1) && listLtB a.2.data b.2.data)

/-- Embeds `MetadataApiServer::Dispatcher::operator()` (`api_server.cc:32`):
the entries whose handler is invoked, in invocation order.  The source
comment (`api_server.cc:41`) describes a backwards traversal of the
sorted handler map invoking every matching entry; this definition models
that intended traversal (the source's loop decrements the reverse
iterator, which never advances it towards `crend()`). -/
def dispatchInvoked (handlers : List ((String × String) × α)) (req : HttpRequest) :
    List ((String × String) × α) :=
  (handlers.filter (fun e => reqMatches req e.1)).reverse

/-- The handler table registered by the `MetadataApiServer` constructor
(`api_server.cc:73`): exactly one entry, `("GET", "/monitoredResource/")`. -/
def apiHandlers (s : MetadataStore) :
    List ((String × String) × (HttpRequest → Option HttpResponse)) :=
  [(("GET", kPrefix), handleMonitoredResource s)]

/-- The responses written for a request: each invoked handler's output,
in invocation order. -/
def dispatchResponses (s : MetadataStore) (req : HttpRequest) : List (Option HttpResponse) :=
  (dispatchInvoked (apiHandlers s) req).map (fun e => e.2 req)

/-! ## Process exit (`src/metadatad.cc`) and the polling updater -/

/-- The early return of `main` (`metadatad.cc:26`):
`if (parse_result) return parse_result < 0 ? 0 : parse_result;`. -/
def mainEarlyReturn (p : Int) : Option Int :=
  if p ≠ 0 then some (if p < 0 then 0 else p) else none

/-- How a fully started agent run ends. -/
inductive RunOutcome where
  | cleanShutdown : RunOutcome
  | bindFailure : RunOutcome

/-- Modelled from the spec (§6 Exit codes): the exit code of an agent run
that passed argument parsing — `0` on clean shutdown (`main` falls off its
end, `metadatad.cc:41`), `2` on an unrecoverable bind failure of the API
socket; the bind/serve path lives outside `src/`. -/
def agentRunExit : RunOutcome → Int
  | .cleanShutdown => 0
  | .bindFailure => 2

/-- The process exit code: the early return of `main` when argument
parsing reports a result, else the outcome of the agent run. -/
def processExit (p : Int) (run : RunOutcome) : Int :=
  match mainEarlyReturn p with
  | some c => c
  | none => agentRunExit run

/-- Embeds `MetadataUpdater::ResourceMetadata` (`updater.h`): one `(ids,
resource, record)` item of a polling batch. -/
structure ResourceMetadata where
  ids : List String
  resource : MonitoredResource
  metadata : Metadata

/-- Modelled from the spec (§4.4: "On success, for each item publish ids
then metadata"): the store calls a polling updater issues for one batch,
through `MetadataUpdater::UpdateResourceCallback` /
`UpdateMetadataCallback` (`updater.h`); the loop body
(`PollingMetadataUpdater::PollForMetadata` in `updater.cc`) is not under
`src/`. -/
def processBatch (batch : List ResourceMetadata) : List StoreOp :=
  batch.foldr
    (fun item acc =>
      .updRes item.ids item.resource :: .updMeta item.resource item.metadata :: acc)
    []

/-! ## Store lemmas -/

theorem foldl_bindAlias_apply (ids : List String) (r : MonitoredResource)
    (m : String → Option MonitoredResource) (x : String) :
    (ids.foldl (fun m a => if a = "" then m else bindAlias a r m) m) x
      = if x ≠ "" ∧ x ∈ ids then some r else m x := by
  induction ids generalizing m with
  | nil => simp
  | cons a as ih =>
    simp only [List.foldl_cons, ih, List.mem_cons]
    by_cases hx : x = ""
    · subst hx
      simp only [ne_eq, not_true_eq_false, false_and, if_false]
      by_cases ha : a = ""
      · simp [ha]
      · rw [if_neg ha]
        unfold bindAlias
        rw [if_neg (fun h => ha h.symm)]
    · by_cases hmem : x ∈ as
      · simp [hx, hmem]
      · by_cases hxa : x = a
        · subst hxa
          simp only [hx, hmem, ne_eq, not_false_eq_true, true_and, or_false, if_false,
            true_or, if_true]
          unfold bindAlias
          rw [if_pos rfl]
        · simp only [hx, hmem, hxa, ne_eq, not_false_eq_true, true_and, or_self, if_false]
          by_cases ha : a = ""
          · simp [ha]
          · rw [if_neg ha]
            unfold bindAlias
            rw [if_neg hxa]

theorem resourceMap_updateResource (ids : List String) (r : MonitoredResource)
    (s : MetadataStore) (x : String) :
    (updateResource ids r s).resourceMap x
      = if x ≠ "" ∧ x ∈ ids then some r else s.resourceMap x :=
  foldl_bindAlias_apply ids r s.resourceMap x

theorem resourceMap_updateMetadata (r : MonitoredResource) (rec : Metadata)
    (s : MetadataStore) :
    (updateMetadata r rec s).resourceMap = s.resourceMap := by
  unfold updateMetadata
  split
  · rfl
  · split <;> rfl

theorem newRecordWins_iff (o n : Metadata) :
    newRecordWins o n = true
      ↔ (o.collected_at < n.collected_at
          ∨ (o.collected_at = n.collected_at ∧ n.is_deleted = true)) := by
  simp [newRecordWins]

/-- C9: for every store state, alias list and resource, calling
`update_resource` twice in a row with the same `(aliases, resource)` pair
leaves the store in the same state as calling it once. -/
theorem update_resource_idempotent (ids : List String) (r : MonitoredResource)
    (s : MetadataStore) :
    updateResource ids r (updateResource ids r s) = updateResource ids r s := by
  cases s with
  | mk rm mm lc =>
    unfold updateResource
    simp only
    congr 1
    funext x
    simp only [foldl_bindAlias_apply]
    by_cases h : x ≠ "" ∧ x ∈ ids <;> simp [h]

/-- C3: with a record already stored for a resource, `update_metadata`
installs the incoming record exactly when its `collected_at` is at least
the stored one's, a tie won only by a tombstone; a strictly earlier
incoming record leaves the whole store unchanged. -/
theorem update_metadata_monotonic (s : MetadataStore) (r : MonitoredResource)
    (oldRec newRec : Metadata) (h : s.metadataMap r = some oldRec) :
    ((updateMetadata r newRec s).metadataMap r
      = if oldRec.collected_at < newRec.collected_at
            ∨ (oldRec.collected_at = newRec.collected_at ∧ newRec.is_deleted = true)
        then some newRec else some oldRec)
    ∧ (newRec.collected_at < oldRec.collected_at → updateMetadata r newRec s = s) := by
  have key : updateMetadata r newRec s
      = if newRecordWins oldRec newRec = true then
          { s with
            metadataMap := fun x => if x = r then some newRec else s.metadataMap x,
            lastCollection :=
              fun x => if x = r then some newRec.collected_at else s.lastCollection x }
        else s := by
    unfold updateMetadata
    rw [h]
  constructor
  · rw [key]
    by_cases hc : oldRec.collected_at < newRec.collected_at
        ∨ (oldRec.collected_at = newRec.collected_at ∧ newRec.is_deleted = true)
    · rw [if_pos ((newRecordWins_iff oldRec newRec).mpr hc)]
      show (if r = r then some newRec else s.metadataMap r)
        = if oldRec.collected_at < newRec.collected_at
              ∨ (oldRec.collected_at = newRec.collected_at ∧ newRec.is_deleted = true)
          then some newRec else some oldRec
      rw [if_pos rfl, if_pos hc]
    · rw [if_neg (fun hw => hc ((newRecordWins_iff oldRec newRec).mp hw)), if_neg hc, h]
  · intro hlt
    have hw : ¬ newRecordWins oldRec newRec = true := by
      rw [newRecordWins_iff]
      omega
    rw [key, if_neg hw]

/-- Witness for C3 at the spec's scenario 3: a tombstone at the same
`collected_at` supersedes the stored record. -/
theorem update_metadata_monotonic_witness :
    (updateMetadata ⟨"gce_instance", []⟩ ⟨"v", 0, 10, true, Json.null, none⟩
        (updateMetadata ⟨"gce_instance", []⟩ ⟨"v", 0, 10, false, Json.null, none⟩
          emptyStore)).metadataMap ⟨"gce_instance", []⟩
      = some ⟨"v", 0, 10, true, Json.null, none⟩ := by
  have h := update_metadata_monotonic
    (updateMetadata ⟨"gce_instance", []⟩ ⟨"v", 0, 10, false, Json.null, none⟩ emptyStore)
    ⟨"gce_instance", []⟩ ⟨"v", 0, 10, false, Json.null, none⟩
    ⟨"v", 0, 10, true, Json.null, none⟩ rfl
  rw [h.1, if_pos (by simp)]

theorem runOps_no_bind (a : String) :
    ∀ (ops : List StoreOp) (s : MetadataStore), lastBinding ops a = none →
      (runOps s ops).resourceMap a = s.resourceMap a := by
  intro ops
  induction ops with
  | nil => intro s _; rfl
  | cons op rest ih =>
    intro s h
    cases hr : lastBinding rest a with
    | some r =>
      simp only [lastBinding, hr] at h
      exact Option.noConfusion h
    | none =>
      simp only [lastBinding, hr] at h
      have hrun : runOps s (op :: rest) = runOps (applyOp s op) rest := rfl
      rw [hrun, ih (applyOp s op) hr]
      cases op with
      | updMeta r rec => exact congrFun (resourceMap_updateMetadata r rec s) a
      | updRes ids r =>
        have hcond : ¬(a ≠ "" ∧ a ∈ ids) := by
          intro hc
          simp only [bindsTo, if_pos hc] at h
          exact Option.noConfusion h
        show (updateResource ids r s).resourceMap a = s.resourceMap a
        rw [resourceMap_updateResource, if_neg hcond]

/-- C4: for any sequence of `update_resource`/`update_metadata`
operations, any initial store and any alias bound somewhere in the
sequence, `lookup_resource` returns the resource the alias was most
recently bound to — a later rebinding wins over an earlier one. -/
theorem lookup_returns_last_binding (a : String) :
    ∀ (ops : List StoreOp) (r : MonitoredResource) (s : MetadataStore),
      lastBinding ops a = some r → lookupResource (runOps s ops) a = some r := by
  intro ops
  induction ops with
  | nil => intro r s h; simp [lastBinding] at h
  | cons op rest ih =>
    intro r s h
    cases hr : lastBinding rest a with
    | some r' =>
      have hrr : r' = r := by
        simp only [lastBinding, hr] at h
        exact Option.some.inj h
      subst hrr
      exact ih r' (applyOp s op) hr
    | none =>
      simp only [lastBinding, hr] at h
      show lookupResource (runOps (applyOp s op) rest) a = some r
      unfold lookupResource
      rw [runOps_no_bind a rest (applyOp s op) hr]
      cases op with
      | updMeta r' rec => simp [bindsTo] at h
      | updRes ids r' =>
        by_cases hc : a ≠ "" ∧ a ∈ ids
        · simp only [bindsTo, if_pos hc] at h
          obtain rfl := Option.some.inj h
          show (updateResource ids r' s).resourceMap a = some r'
          rw [resourceMap_updateResource, if_pos hc]
        · simp only [bindsTo, if_neg hc] at h
          exact Option.noConfusion h

/-- Witness for C4: after binding `"x"` to one resource and rebinding it
to another, lookup returns the newer binding. -/
theorem lookup_returns_last_binding_witness :
    lastBinding [StoreOp.updRes ["x"] ⟨"gce_instance", [("instance_id", "42")]⟩,
        StoreOp.updRes ["x", "y"] ⟨"docker_container", []⟩] "x"
      = some ⟨"docker_container", []⟩
    ∧ lookupResource
        (runOps emptyStore
          [StoreOp.updRes ["x"] ⟨"gce_instance", [("instance_id", "42")]⟩,
           StoreOp.updRes ["x", "y"] ⟨"docker_container", []⟩]) "x"
      = some ⟨"docker_container", []⟩ :=
  ⟨by decide,
   lookup_returns_last_binding "x"
     [StoreOp.updRes ["x"] ⟨"gce_instance", [("instance_id", "42")]⟩,
      StoreOp.updRes ["x", "y"] ⟨"docker_container", []⟩]
     ⟨"docker_container", []⟩ emptyStore (by decide)⟩

/-- C6: the exit code is `0` for a negative (non-error) parse result, the
positive parse result itself on a parse error (`1` for a fatal
configuration error), `0` on a clean run, `2` on a bind failure; on a
clean run the exit code is nonzero exactly when parsing reported a
positive error. -/
theorem process_exit_codes (p : Int) (run : RunOutcome) :
    (p < 0 → processExit p run = 0)
    ∧ (0 < p → processExit p run = p)
    ∧ (processExit p RunOutcome.cleanShutdown ≠ 0 ↔ 0 < p)
    ∧ processExit 1 run = 1
    ∧ processExit 0 RunOutcome.cleanShutdown = 0
    ∧ processExit 0 RunOutcome.bindFailure = 2 := by
  by_cases hp : p = 0
  · subst hp
    refine ⟨by omega, by omega, ?_, rfl, rfl, rfl⟩
    show agentRunExit RunOutcome.cleanShutdown ≠ 0 ↔ (0 : Int) < 0
    simp [agentRunExit]
  · have hform : processExit p run = if p < 0 then 0 else p := by
      unfold processExit mainEarlyReturn
      rw [if_pos hp]
    have hform' : processExit p RunOutcome.cleanShutdown = if p < 0 then 0 else p := by
      unfold processExit mainEarlyReturn
      rw [if_pos hp]
    refine ⟨fun h => by rw [hform, if_pos h], fun h => by rw [hform, if_neg (by omega)], ?_,
      rfl, rfl, rfl⟩
    rw [hform']
    by_cases hneg : p < 0
    · rw [if_pos hneg]
      simp
      omega
    · rw [if_neg hneg]
      constructor
      · intro _; omega
      · intro _; exact hp

/-- Witness for C6 at concrete parse results. -/
theorem process_exit_codes_witness :
    processExit (-3) RunOutcome.cleanShutdown = 0
    ∧ processExit 1 RunOutcome.cleanShutdown = 1
    ∧ processExit 0 RunOutcome.bindFailure = 2 :=
  ⟨(process_exit_codes (-3) RunOutcome.cleanShutdown).1 (by decide),
   (process_exit_codes 1 RunOutcome.cleanShutdown).2.1 (by decide),
   (process_exit_codes 0 RunOutcome.bindFailure).2.2.2.2.2⟩

/-- C5: within one batch, the `update_resource` call for an item is
published strictly before the `update_metadata` call for the same item:
they sit at trace positions `2*i` and `2*i + 1`. -/
theorem batch_resource_before_metadata (batch : List ResourceMetadata) (i : Nat)
    (item : ResourceMetadata) (h : batch[i]? = some item) :
    (processBatch batch)[2 * i]? = some (StoreOp.updRes item.ids item.resource)
    ∧ (processBatch batch)[2 * i + 1]?
        = some (StoreOp.updMeta item.resource item.metadata)
    ∧ 2 * i < 2 * i + 1 := by
  induction batch generalizing i with
  | nil => simp at h
  | cons hd tl ih =>
    cases i with
    | zero =>
      have hitem : hd = item := by simpa using h
      subst hitem
      refine ⟨by simp [processBatch], by simp [processBatch], by omega⟩
    | succ j =>
      have hj : tl[j]? = some item := by simpa using h
      have e1 : 2 * (j + 1) = 2 * j + 1 + 1 := by omega
      have e2 : 2 * (j + 1) + 1 = 2 * j + 1 + 1 + 1 := by omega
      have hcons : processBatch (hd :: tl)
          = StoreOp.updRes hd.ids hd.resource
            :: StoreOp.updMeta hd.resource hd.metadata :: processBatch tl := rfl
      obtain ⟨ha, hb, _⟩ := ih j hj
      refine ⟨?_, ?_, by omega⟩
      · rw [hcons, e1]
        simpa using ha
      · rw [hcons, e2]
        simpa using hb

/-- Witness for C5 on a singleton batch. -/
theorem batch_resource_before_metadata_witness :
    (processBatch [⟨["i-42"], ⟨"gce_instance", []⟩, ⟨"v", 0, 1, false, Json.null, none⟩⟩])[2 * 0]?
      = some (StoreOp.updRes ["i-42"] ⟨"gce_instance", []⟩)
    ∧ (processBatch [⟨["i-42"], ⟨"gce_instance", []⟩, ⟨"v", 0, 1, false, Json.null, none⟩⟩])[2 * 0 + 1]?
      = some (StoreOp.updMeta ⟨"gce_instance", []⟩ ⟨"v", 0, 1, false, Json.null, none⟩)
    ∧ 2 * 0 < 2 * 0 + 1 :=
  batch_resource_before_metadata
    [⟨["i-42"], ⟨"gce_instance", []⟩, ⟨"v", 0, 1, false, Json.null, none⟩⟩] 0
    ⟨["i-42"], ⟨"gce_instance", []⟩, ⟨"v", 0, 1, false, Json.null, none⟩⟩ rfl

/-! ## HTTP handler lemmas -/

theorem substrSafe_after (p a : String) :
    substrSafe (p ++ a) p.data.length = some a := by
  unfold substrSafe
  have hdata : (p ++ a).data = p.data ++ a.data := rfl
  rw [hdata, if_pos (by simp)]
  rw [List.drop_left]

/-- C2: a GET request for `/monitoredResource/` followed by alias `a`
answers `200` with the resource's canonical JSON when the store lookup
succeeds, and `404` with body exactly
`\x7b"status_code":404,"error":"Not found"\x7d` when it fails. -/
theorem handle_monitored_resource_responses (s : MetadataStore) (a : String) :
    (∀ r, lookupResource s a = some r →
      handleMonitoredResource s ⟨"GET", kPrefix ++ a⟩
        = some ⟨200, "application/json", jsonToString (resourceToJSON r)⟩)
    ∧ (lookupResource s a = none →
      handleMonitoredResource s ⟨"GET", kPrefix ++ a⟩
        = some ⟨404, "application/json",
            "\x7b\"status_code\":404,\"error\":\"Not found\"\x7d"⟩) := by
  have hmain : handleMonitoredResource s ⟨"GET", kPrefix ++ a⟩
      = some (handleWithAlias s a) := by
    show (substrSafe (kPrefix ++ a) kPrefix.data.length).map (handleWithAlias s)
      = some (handleWithAlias s a)
    rw [substrSafe_after]
    rfl
  constructor
  · intro r hr
    rw [hmain]
    unfold handleWithAlias
    rw [hr]
  · intro hr
    rw [hmain]
    unfold handleWithAlias
    rw [hr]
    rfl

/-- Witness for C2: a bound alias answers `200` with the resource's JSON;
an unknown alias answers the exact `404` body. -/
theorem handle_monitored_resource_responses_witness :
    handleMonitoredResource
        (updateResource ["abc"] ⟨"gce_instance", [("instance_id", "42")]⟩ emptyStore)
        ⟨"GET", kPrefix ++ "abc"⟩
      = some ⟨200, "application/json",
          jsonToString (resourceToJSON ⟨"gce_instance", [("instance_id", "42")]⟩)⟩
    ∧ handleMonitoredResource emptyStore ⟨"GET", kPrefix ++ "nope"⟩
      = some ⟨404, "application/json",
          "\x7b\"status_code\":404,\"error\":\"Not found\"\x7d"⟩ :=
  ⟨(handle_monitored_resource_responses
      (updateResource ["abc"] ⟨"gce_instance", [("instance_id", "42")]⟩ emptyStore)
      "abc").1 ⟨"gce_instance", [("instance_id", "42")]⟩ (by decide),
   (handle_monitored_resource_responses emptyStore "nope").2 rfl⟩

/-! ## JSON round-trip -/

theorem labelsFromJSON_roundtrip (l : List (String × String)) :
    labelsFromJSON (l.map (fun kv => (kv.1, Json.str kv.2))) = some l := by
  induction l with
  | nil => rfl
  | cons kv rest ih =>
    obtain ⟨k, v⟩ := kv
    simp only [List.map_cons, labelsFromJSON, ih]
    rfl

/-- C8: JSON-encoding a monitored resource and decoding the result yields
the original resource (labels are the canonical key-ordered association
list of the C++ `std::map`, on which structural and pointwise equality
coincide). -/
theorem resource_json_roundtrip (r : MonitoredResource) :
    resourceFromJSON (resourceToJSON r) = some r := by
  obtain ⟨t, labels⟩ := r
  show (labelsFromJSON (labels.map (fun kv => (kv.1, Json.str kv.2)))).map
      (fun labels => (⟨t, labels⟩ : MonitoredResource))
    = some ⟨t, labels⟩
  rw [labelsFromJSON_roundtrip]
  rfl

/-! ## Dispatcher lemmas -/

theorem listStarts_append_drop :
    ∀ (s p : List Char), listStarts s p = true →
      p.length ≤ s.length ∧ p ++ s.drop p.length = s := by
  intro s p
  induction p generalizing s with
  | nil => intro _; simp
  | cons a ps ih =>
    intro h
    cases s with
    | nil => simp [listStarts] at h
    | cons c cs =>
      simp only [listStarts, Bool.and_eq_true, beq_iff_eq] at h
      obtain ⟨hc, hrest⟩ := h
      obtain ⟨hl, he⟩ := ih cs hrest
      subst hc
      refine ⟨by simpa using hl, ?_⟩
      simp only [List.length_cons, List.drop_succ_cons, List.cons_append, he]

/-- C10: whenever the dispatcher invokes a handler from the registered
table, the destination starts with `"/monitoredResource/"`, so the
`substr` in `HandleMonitoredResource` succeeds (never out of bounds) and
the alias handed to the store lookup is exactly the suffix of the path
after the prefix. -/
theorem dispatched_alias_safe (s : MetadataStore) (req : HttpRequest)
    (e : (String × String) × (HttpRequest → Option HttpResponse))
    (he : e ∈ dispatchInvoked (apiHandlers s) req) :
    strStarts req.destination kPrefix = true
    ∧ ∃ suffix,
        substrSafe req.destination kPrefix.data.length = some suffix
        ∧ kPrefix.data ++ suffix.data = req.destination.data
        ∧ handleMonitoredResource s req = some (handleWithAlias s suffix) := by
  have hmem : e ∈ (apiHandlers s).filter (fun e => reqMatches req e.1) := by
    simpa [dispatchInvoked] using he
  have hmatch : reqMatches req e.1 = true := (List.mem_filter.mp hmem).2
  have hein : e ∈ apiHandlers s := (List.mem_filter.mp hmem).1
  have hkey : e.1 = ("GET", kPrefix) := by
    have : e = (("GET", kPrefix), handleMonitoredResource s) := by
      simpa [apiHandlers] using hein
    rw [this]
  have hstart : strStarts req.destination kPrefix = true := by
    rw [hkey] at hmatch
    simp only [reqMatches, Bool.and_eq_true] at hmatch
    exact hmatch.2
  obtain ⟨hlen, happ⟩ := listStarts_append_drop req.destination.data kPrefix.data hstart
  refine ⟨hstart, String.mk (req.destination.data.drop kPrefix.data.length), ?_, ?_, ?_⟩
  · unfold substrSafe
    rw [if_pos hlen]
  · exact happ
  · unfold handleMonitoredResource substrSafe
    rw [if_pos hlen]
    rfl

/-- Witness for C10 at a concrete dispatched request. -/
theorem dispatched_alias_safe_witness :
    strStarts "/monitoredResource/abc" kPrefix = true
    ∧ ∃ suffix,
        substrSafe "/monitoredResource/abc" kPrefix.data.length = some suffix
        ∧ kPrefix.data ++ suffix.data = "/monitoredResource/abc".data
        ∧ handleMonitoredResource emptyStore ⟨"GET", "/monitoredResource/abc"⟩
            = some (handleWithAlias emptyStore suffix) :=
  dispatched_alias_safe emptyStore ⟨"GET", "/monitoredResource/abc"⟩
    (("GET", kPrefix), handleMonitoredResource emptyStore)
    (by
      show _ ∈ dispatchInvoked (apiHandlers emptyStore) ⟨"GET", "/monitoredResource/abc"⟩
      have : dispatchInvoked (apiHandlers emptyStore) ⟨"GET", "/monitoredResource/abc"⟩
          = [(("GET", kPrefix), handleMonitoredResource emptyStore)] := by
        unfold dispatchInvoked apiHandlers
        rw [List.filter_cons, if_pos (by decide)]
        rfl
      rw [this]
      exact List.mem_singleton.mpr rfl)

/-- C7 (amended): a request matching no registered `(method, prefix)`
pair — wrong method or unmatched path — causes the dispatcher to invoke
no handler and to write no response at all: in particular neither a `405`
nor the claimed `404`. -/
theorem dispatcher_unmatched_writes_nothing (s : MetadataStore) (req : HttpRequest)
    (h : req.method ≠ "GET" ∨ strStarts req.destination kPrefix = false) :
    dispatchResponses s req = [] := by
  have hm : reqMatches req ("GET", kPrefix) = false := by
    unfold reqMatches
    rcases h with h | h
    · simp [h]
    · simp [h]
  unfold dispatchResponses dispatchInvoked apiHandlers
  rw [List.filter_cons, if_neg (by simp [hm])]
  rfl

/-- Counterexample for C7 as stated: for a request matching no registered
pair the dispatcher writes no response whatsoever — it does not produce a
404 response. -/
theorem dispatcher_unmatched_no_404 :
    dispatchResponses emptyStore ⟨"POST", "/monitoredResource/x"⟩ = [] := rfl

/-- Witness for the amended C7 at a concrete unmatched path. -/
theorem dispatcher_unmatched_writes_nothing_witness :
    dispatchResponses emptyStore ⟨"GET", "/foo"⟩ = [] :=
  dispatcher_unmatched_writes_nothing emptyStore ⟨"GET", "/foo"⟩ (Or.inr (by decide))

theorem listLtB_irrefl : ∀ l : List Char, listLtB l l = false := by
  intro l
  induction l with
  | nil => rfl
  | cons a as ih => simp [listLtB, ih]

theorem listStarts_ltB_length :
    ∀ (s p₁ p₂ : List Char), listStarts s p₁ = true → listStarts s p₂ = true →
      listLtB p₁ p₂ = true → p₁.length ≤ p₂.length := by
  intro s
  induction s with
  | nil =>
    intro p₁ p₂ h1 _ _
    cases p₁ with
    | nil => simp
    | cons a as => simp [listStarts] at h1
  | cons c cs ih =>
    intro p₁ p₂ h1 h2 h3
    cases p₁ with
    | nil => simp
    | cons a as =>
      cases p₂ with
      | nil => simp [listLtB] at h3
      | cons b bs =>
        simp only [listStarts, Bool.and_eq_true, beq_iff_eq] at h1 h2
        obtain ⟨hca, h1⟩ := h1
        obtain ⟨hcb, h2⟩ := h2
        have hab : a = b := by rw [← hca, ← hcb]
        subst hab
        rw [listLtB, if_neg (lt_irrefl a), if_neg (lt_irrefl a)] at h3
        simpa using ih as bs h1 h2 h3

/-- C1 (intended dispatcher semantics): over any handler table sorted in
the `std::map` key order, the first handler the backwards traversal
invokes is one whose `(method, prefix)` pair matches the request with a
prefix at least as long as that of every other matching entry — the
longest matching prefix is served first, never a strictly shorter one. -/
theorem dispatcher_longest_match_first {α : Type} (handlers : List ((String × String) × α))
    (req : HttpRequest)
    (hsorted : List.Pairwise (fun x y => keyLtB x.1 y.1 = true) handlers)
    (e₀ : (String × String) × α) (rest : List ((String × String) × α))
    (hdisp : dispatchInvoked handlers req = e₀ :: rest) :
    reqMatches req e₀.1 = true
    ∧ ∀ e ∈ rest, reqMatches req e.1 = true
        ∧ e.1.2.data.length ≤ e₀.1.2.data.length := by
  have hall : ∀ e ∈ dispatchInvoked handlers req, reqMatches req e.1 = true := by
    intro e he
    have hf : e ∈ handlers.filter (fun e => reqMatches req e.1) := by
      simpa [dispatchInvoked] using he
    exact (List.mem_filter.mp hf).2
  have hpw : List.Pairwise (fun x y => keyLtB y.1 x.1 = true)
      (dispatchInvoked handlers req) :=
    List.pairwise_reverse.mpr (hsorted.filter _)
  rw [hdisp] at hall hpw
  have h0 : reqMatches req e₀.1 = true := hall e₀ (List.mem_cons_self e₀ rest)
  have h0' := h0
  simp only [reqMatches, Bool.and_eq_true, beq_iff_eq] at h0'
  refine ⟨h0, fun e he => ?_⟩
  have hematch : reqMatches req e.1 = true := hall e (List.mem_cons_of_mem _ he)
  refine ⟨hematch, ?_⟩
  have hlt : keyLtB e.1 e₀.1 = true := (List.pairwise_cons.mp hpw).1 e he
  have hem := hematch
  simp only [reqMatches, Bool.and_eq_true, beq_iff_eq] at hem
  have hfst : e.1.1 = e₀.1.1 := by rw [← hem.1, ← h0'.1]
  rw [keyLtB, hfst, listLtB_irrefl] at hlt
  simp only [Bool.false_or, Bool.and_eq_true, beq_iff_eq] at hlt
  exact listStarts_ltB_length req.destination.data e.1.2.data e₀.1.2.data
    hem.2 h0'.2 hlt.2

/-- Witness for C1's intended-semantics theorem on a two-entry table:
with `GET /a` and `GET /ab` registered and a request for `/abc`, the
longer prefix `/ab` is invoked first. -/
theorem dispatcher_longest_match_first_witness :
    reqMatches ⟨"GET", "/abc"⟩ (("GET", "/ab"), (2 : Nat)).1 = true
    ∧ ∀ e ∈ [(("GET", "/a"), (1 : Nat))],
        reqMatches ⟨"GET", "/abc"⟩ e.1 = true
        ∧ e.1.2.data.length ≤ (("GET", "/ab"), (2 : Nat)).1.2.data.length :=
  dispatcher_longest_match_first
    [(("GET", "/a"), (1 : Nat)), (("GET", "/ab"), (2 : Nat))]
    ⟨"GET", "/abc"⟩ (by decide) (("GET", "/ab"), (2 : Nat)) [(("GET", "/a"), (1 : Nat))]
    (by decide)

end MetadataAgent
